import Mathlib

/-!
# Verification of the chat relay hub (`server` in `src/main.go`)

This file gives a shallow embedding of the hub's event-processing loop
(the body of `func server(messages chan Message)` in `src/main.go`; the
variant in `src/legacy.go` has the same policy logic) and proves the
spec's claims about it.

Modelling conventions:
* A Go `net.Conn` is modelled by `Conn`: a connection identifier plus its
  remote address.  `RemoteAddr().String()` (host+port) is modelled by the
  structural `Addr` value, and `RemoteAddr().(*net.TCPAddr).IP.String()`
  (host only) by `Addr.ip`; the string rendering of a real TCP address is
  injective, so string comparison in the source is address comparison here.
* Timestamps are integers (whole seconds); `time.Now()` is modelled by an
  explicit `now` argument per event, and the real-valued comparison of
  `t2.Sub(t1).Seconds()` against the integral constants `MessageRate` and
  `BanLimit` by the order-preserving integer comparison of `t2 - t1`.
* Go map operations on `clients` and `bannedMfs` are modelled by
  association lists with lookup / replace-insert / erase.  The Go code
  mutates `*Client` through a pointer while it is in the map; that is
  modelled by re-inserting the updated record under the same key.
* Go strings are byte strings and may be invalid UTF-8, so inbound text is
  a byte list and `utf8.ValidString` is embedded as `utf8Valid`.
* The hub's externally visible actions (socket writes, closes, log lines)
  are collected in an `Effect` list.  The rejection-notice write carries
  the remaining ban seconds that the source formats into its fixed
  message string.  Whether a broadcast write to a peer fails is decided by
  the environment, modelled by an oracle `wfail`; the source ignores the
  error except for logging.
* The source's `SafeMode` constant is passed as an explicit parameter so
  that the privacy-toggle hyperproperty can be stated; `sensitive` is the
  source's redaction function.
-/

/-- Remote-address identity: host (IP string) plus port. -/
structure Addr where
  ip : String
  port : Nat
deriving DecidableEq

/-- A connection handle: an identity for the underlying socket plus its
remote address. -/
structure Conn where
  connId : Nat
  addr : Addr
deriving DecidableEq

/-- `const SafeMode = true` from `src/main.go`. -/
def SafeMode : Bool := true

/-- `const MessageRate = 1.0` (seconds) from `src/main.go`. -/
def MessageRate : ℤ := 1

/-- `const BanLimit = 10.0` (seconds) from `src/main.go`. -/
def BanLimit : ℤ := 10

/-- `const StrikeLimit = 10` from `src/main.go`. -/
def StrikeLimit : Nat := 10

/-- `func sensitive(message string) string` from `src/main.go`, with the
global `SafeMode` constant passed explicitly. -/
def sensitive (safeMode : Bool) (message : String) : String :=
  if safeMode then "[REDACTED]" else message

/-- `type Client struct` from `src/main.go`: the hub's per-session record. -/
structure Client where
  conn : Conn
  lastMessage : ℤ
  strikeCount : Nat
deriving DecidableEq

/-- The hub's events (`type Message struct` with its `MessageType` tag from
`src/main.go`): `ClientConnected`, `NewMessage` (carrying the raw bytes
read), `ClientDisconnected`. -/
inductive HEvent where
  | ClientConnected (conn : Conn)
  | NewMessage (conn : Conn) (text : List Nat)
  | ClientDisconnected (conn : Conn)
deriving DecidableEq

/-- Association-list lookup, modelling Go map indexing `m[k]`. -/
def lookupA {α β : Type} [DecidableEq α] : List (α × β) → α → Option β
  | [], _ => none
  | (k, v) :: rest, key => if k = key then some v else lookupA rest key

/-- Association-list insert-or-replace, modelling Go map assignment
`m[k] = v`. -/
def insertA {α β : Type} [DecidableEq α] : List (α × β) → α → β → List (α × β)
  | [], key, val => [(key, val)]
  | (k, v) :: rest, key, val =>
      if k = key then (key, val) :: rest else (k, v) :: insertA rest key val

/-- Association-list erase, modelling Go `delete(m, k)`. -/
def eraseA {α β : Type} [DecidableEq α] : List (α × β) → α → List (α × β)
  | [], _ => []
  | (k, v) :: rest, key =>
      if k = key then eraseA rest key else (k, v) :: eraseA rest key

/-- Is `b` a UTF-8 continuation byte (`0x80–0xBF`)? -/
def isCont (b : Nat) : Bool := decide (0x80 ≤ b ∧ b ≤ 0xBF)

/-- `utf8.ValidString` from Go's `unicode/utf8`, on the byte string: standard
UTF-8 validity (rejecting overlong forms, surrogates and values above
U+10FFFF). -/
def utf8Valid : List Nat → Bool
  | [] => true
  | b :: rest =>
    if b ≤ 0x7F then utf8Valid rest
    else if b < 0xC2 then false
    else if b ≤ 0xDF then
      match rest with
      | b1 :: rest1 => isCont b1 && utf8Valid rest1
      | [] => false
    else if b ≤ 0xEF then
      match rest with
      | b1 :: b2 :: rest2 =>
          (if b = 0xE0 then decide (0xA0 ≤ b1 ∧ b1 ≤ 0xBF)
           else if b = 0xED then decide (0x80 ≤ b1 ∧ b1 ≤ 0x9F)
           else isCont b1) && isCont b2 && utf8Valid rest2
      | _ => false
    else if b ≤ 0xF4 then
      match rest with
      | b1 :: b2 :: b3 :: rest3 =>
          (if b = 0xF0 then decide (0x90 ≤ b1 ∧ b1 ≤ 0xBF)
           else if b = 0xF4 then decide (0x80 ≤ b1 ∧ b1 ≤ 0x8F)
           else isCont b1) && isCont b2 && isCont b3 && utf8Valid rest3
      | _ => false
    else false

/-- String rendering of a remote address, as Go's `TCPAddr.String()`
(used only inside log lines). -/
def addrStr (a : Addr) : String := a.ip ++ ":" ++ toString a.port

/-- One externally visible action of the hub:
* `banNotice c r` — the rejection write `"You are banned buddy: %f seconds
  left\n"` to `c`, carrying the remaining seconds `r`;
* `close c` — `c.Close()`;
* `send c data` — `c.Write(data)` of a broadcast payload;
* `log…` — the `log.Printf` lines, carrying the (possibly redacted) text
  actually printed. -/
inductive Effect where
  | banNotice (conn : Conn) (remainingSecs : ℤ)
  | close (conn : Conn)
  | send (conn : Conn) (data : List Nat)
  | logConnect (shownHost : String)
  | logDisconnect (shownAddr : String)
  | logSent (shownAddr : String) (data : List Nat)
  | logSendFail (shownAddr : String)
deriving DecidableEq

/-- Is this effect a log line (as opposed to bytes written to a client
connection or a close)? -/
def Effect.isLog : Effect → Bool
  | .logConnect _ => true
  | .logDisconnect _ => true
  | .logSent _ _ => true
  | .logSendFail _ => true
  | _ => false

/-- The hub's state: the `clients` registry keyed by remote-address identity
and the `bannedMfs` ban list keyed by remote host, as in `func server`. -/
structure ServerState where
  clients : List (Addr × Client)
  bannedMfs : List (String × ℤ)
deriving DecidableEq

/-- The empty initial state of `func server`. -/
def initState : ServerState := { clients := [], bannedMfs := [] }

/-- The broadcast loop `for _, client := range clients` of `src/main.go`:
attempt a write of `text` to every session whose connection's remote
address differs from the author's; a failed write (per the `wfail` oracle)
is only logged. -/
def fanout (safeMode : Bool) (wfail : Conn → Bool) (authorAddr : Addr)
    (text : List Nat) : List (Addr × Client) → List Effect
  | [] => []
  | (_, cl) :: rest =>
      (if cl.conn.addr ≠ authorAddr then
        Effect.send cl.conn text ::
          (if wfail cl.conn then
            [Effect.logSendFail (sensitive safeMode (addrStr cl.conn.addr))]
          else [])
      else []) ++ fanout safeMode wfail authorAddr text rest

/-- The strike bookkeeping duplicated in both strike branches of
`src/main.go`: `author.StrikeCount++`, then if the count exceeds
`StrikeLimit`, record a ban for the author's host at `now` and close the
author's connection. -/
def strikeUpdate (s : ServerState) (conn : Conn) (author : Client)
    (now : ℤ) : ServerState × List Effect :=
  let author' := { author with strikeCount := author.strikeCount + 1 }
  if author'.strikeCount > StrikeLimit then
    ({ clients := insertA s.clients conn.addr author',
       bannedMfs := insertA s.bannedMfs conn.addr.ip now },
     [Effect.close author.conn])
  else
    ({ s with clients := insertA s.clients conn.addr author' }, [])

/-- One iteration of the event loop of `func server(messages chan Message)`
in `src/main.go`: process a single event against the current state,
returning the new state and the effects performed. -/
def serverStep (safeMode : Bool) (wfail : Conn → Bool) (now : ℤ)
    (s : ServerState) (msg : HEvent) : ServerState × List Effect :=
  match msg with
  | .ClientConnected conn =>
      match lookupA s.bannedMfs conn.addr.ip with
      | some bannedAt =>
          if now - bannedAt ≥ BanLimit then
            ({ clients := insertA s.clients conn.addr
                 ({ conn := conn, lastMessage := now, strikeCount := 0 }),
               bannedMfs := eraseA s.bannedMfs conn.addr.ip },
             [Effect.logConnect (sensitive safeMode conn.addr.ip)])
          else
            (s, [Effect.banNotice conn (BanLimit - (now - bannedAt)),
                 Effect.close conn])
      | none =>
          ({ s with
               clients := insertA s.clients conn.addr
                 ({ conn := conn, lastMessage := now, strikeCount := 0 }) },
           [Effect.logConnect (sensitive safeMode conn.addr.ip)])
  | .ClientDisconnected conn =>
      ({ s with clients := eraseA s.clients conn.addr },
       [Effect.logDisconnect (sensitive safeMode (addrStr conn.addr))])
  | .NewMessage conn text =>
      match lookupA s.clients conn.addr with
      | some author =>
          if now - author.lastMessage ≥ MessageRate then
            if utf8Valid text then
              let author' := { author with strikeCount := 0, lastMessage := now }
              let clients' := insertA s.clients conn.addr author'
              ({ s with clients := clients' },
               Effect.logSent (sensitive safeMode (addrStr conn.addr)) text ::
                 fanout safeMode wfail conn.addr text clients')
            else
              strikeUpdate s conn author now
          else
            strikeUpdate s conn author now
      | none => (s, [Effect.close conn])

/-- Run the hub from the empty initial state over a timed event sequence. -/
def serverRun (safeMode : Bool) (wfail : Conn → Bool)
    (evs : List (ℤ × HEvent)) : ServerState :=
  evs.foldl (fun s te => (serverStep safeMode wfail te.fst s te.snd).fst)
    initState

/-- The write attempts of one broadcast, with the failure logging stripped:
one `send` per registered session whose remote address differs from the
author's. -/
def sendsOnly (authorAddr : Addr) (text : List Nat) :
    List (Addr × Client) → List Effect
  | [] => []
  | (_, cl) :: rest =>
      (if cl.conn.addr ≠ authorAddr then [Effect.send cl.conn text] else []) ++
        sendsOnly authorAddr text rest

/-- Sample connection for concrete instantiations. -/
def cA : Conn := { connId := 0, addr := { ip := "10.0.0.1", port := 4000 } }

/-- Sample connection for concrete instantiations. -/
def cB : Conn := { connId := 1, addr := { ip := "10.0.0.2", port := 4001 } }

/-- Sample connection for concrete instantiations. -/
def cC : Conn := { connId := 2, addr := { ip := "10.0.0.3", port := 4002 } }

/-- A sample hub state with three registered sessions, admitted at time 0. -/
def sampleS : ServerState :=
  serverRun true (fun _ => false)
    [(0, HEvent.ClientConnected cA), (0, HEvent.ClientConnected cB),
     (0, HEvent.ClientConnected cC)]

/-- A sample hub state with one session for `cA` and a ban on host
`10.0.0.9` recorded at time 0. -/
def sampleBanS : ServerState :=
  { clients := [(cA.addr, { conn := cA, lastMessage := 0, strikeCount := 0 })],
    bannedMfs := [("10.0.0.9", 0)] }

/-- Sample connection from the banned host `10.0.0.9`. -/
def cBan : Conn := { connId := 3, addr := { ip := "10.0.0.9", port := 5000 } }

/-- A sample one-session state whose session already has 10 strikes. -/
def sampleHotS : ServerState :=
  { clients := [(cA.addr, { conn := cA, lastMessage := 0, strikeCount := 10 })],
    bannedMfs := [] }

theorem lookupA_insertA_self {α β : Type} [DecidableEq α]
    (l : List (α × β)) (k : α) (v : β) :
    lookupA (insertA l k v) k = some v := by
  induction l with
  | nil => simp [insertA, lookupA]
  | cons hd tl ih =>
    obtain ⟨k1, v1⟩ := hd
    by_cases h : k1 = k
    · subst h; simp [insertA, lookupA]
    · simp [insertA, lookupA, h, ih]

theorem lookupA_insertA_ne {α β : Type} [DecidableEq α]
    (l : List (α × β)) (k k' : α) (v : β) (h : k ≠ k') :
    lookupA (insertA l k v) k' = lookupA l k' := by
  induction l with
  | nil => simp [insertA, lookupA, h]
  | cons hd tl ih =>
    obtain ⟨k1, v1⟩ := hd
    by_cases h1 : k1 = k
    · subst h1; simp [insertA, lookupA, h]
    · simp [insertA, lookupA, h1, ih]

theorem lookupA_eraseA_self {α β : Type} [DecidableEq α]
    (l : List (α × β)) (k : α) :
    lookupA (eraseA l k) k = none := by
  induction l with
  | nil => simp [eraseA, lookupA]
  | cons hd tl ih =>
    obtain ⟨k1, v1⟩ := hd
    by_cases h : k1 = k
    · simp [eraseA, h, ih]
    · simp [eraseA, lookupA, h, ih]

theorem eraseA_idem {α β : Type} [DecidableEq α]
    (l : List (α × β)) (k : α) :
    eraseA (eraseA l k) k = eraseA l k := by
  induction l with
  | nil => simp [eraseA]
  | cons hd tl ih =>
    obtain ⟨k1, v1⟩ := hd
    by_cases h : k1 = k
    · simp [eraseA, h, ih]
    · simp [eraseA, h, ih]

theorem eraseA_of_lookupA_none {α β : Type} [DecidableEq α]
    (l : List (α × β)) (k : α) (h : lookupA l k = none) :
    eraseA l k = l := by
  induction l with
  | nil => simp [eraseA]
  | cons hd tl ih =>
    obtain ⟨k1, v1⟩ := hd
    by_cases h1 : k1 = k
    · simp [lookupA, h1] at h
    · simp only [lookupA, h1, if_neg] at h
      simp [eraseA, h1, ih h]

theorem mem_insertA_self {α β : Type} [DecidableEq α]
    (l : List (α × β)) (k : α) (v : β) :
    (k, v) ∈ insertA l k v := by
  induction l with
  | nil => simp [insertA]
  | cons hd tl ih =>
    obtain ⟨k1, v1⟩ := hd
    by_cases h : k1 = k
    · simp [insertA, h]
    · simp only [insertA, h, if_neg]
      exact List.mem_cons_of_mem _ ih

theorem mem_insertA_of_mem {α β : Type} [DecidableEq α]
    (l : List (α × β)) (k k' : α) (v v' : β) (h : (k', v') ∈ l) :
    (k', v') ∈ insertA l k v ∨ (k' = k ∧ lookupA l k = some v') := by
  induction l with
  | nil => simp at h
  | cons hd tl ih =>
    obtain ⟨k1, v1⟩ := hd
    rcases List.mem_cons.mp h with heq | hmem
    · obtain ⟨hk, hv⟩ := Prod.mk.injEq .. ▸ heq
      subst hk; subst hv
      by_cases hk1 : k' = k
      · subst hk1
        right
        exact ⟨rfl, by simp [lookupA]⟩
      · left
        have : k' ≠ k := hk1
        simp [insertA, hk1]
    · by_cases hk1 : k1 = k
      · subst hk1
        left
        simp only [insertA, if_pos rfl]
        exact List.mem_cons_of_mem _ hmem
      · rcases ih hmem with hin | ⟨hk', hlk⟩
        · left
          simp only [insertA, hk1, if_neg]
          exact List.mem_cons_of_mem _ hin
        · right
          exact ⟨hk', by simp [lookupA, hk1, hlk]⟩

theorem send_mem_fanout (safe : Bool) (w : Conn → Bool) (aAddr : Addr)
    (text : List Nat) (l : List (Addr × Client)) (k : Addr) (cl : Client)
    (hm : (k, cl) ∈ l) (hne : cl.conn.addr ≠ aAddr) :
    Effect.send cl.conn text ∈ fanout safe w aAddr text l := by
  induction l with
  | nil => simp at hm
  | cons hd tl ih =>
    obtain ⟨k1, c1⟩ := hd
    simp only [fanout, List.mem_append]
    rcases List.mem_cons.mp hm with heq | hmem
    · obtain ⟨hk, hc⟩ := Prod.mk.injEq .. ▸ heq
      subst hc
      left
      rw [if_pos hne]
      exact List.mem_cons_self _ _
    · right
      exact ih hmem

theorem fanout_send_inv (safe : Bool) (w : Conn → Bool) (aAddr : Addr)
    (text : List Nat) (l : List (Addr × Client)) (c : Conn) (d : List Nat)
    (hm : Effect.send c d ∈ fanout safe w aAddr text l) :
    d = text ∧ c.addr ≠ aAddr ∧ ∃ k cl, (k, cl) ∈ l ∧ cl.conn = c := by
  induction l with
  | nil => simp [fanout] at hm
  | cons hd tl ih =>
    obtain ⟨k1, c1⟩ := hd
    simp only [fanout, List.mem_append] at hm
    rcases hm with hm | hm
    · by_cases hcond : c1.conn.addr ≠ aAddr
      · rw [if_pos hcond] at hm
        rcases List.mem_cons.mp hm with heq | hmem2
        · obtain ⟨hc, hd'⟩ := Effect.send.injEq .. ▸ heq
          subst hc; subst hd'
          exact ⟨rfl, hcond, k1, c1, List.mem_cons_self _ _, rfl⟩
        · exfalso
          split at hmem2 <;> simp at hmem2
      · rw [if_neg hcond] at hm
        simp at hm
    · obtain ⟨hd', hca, k, cl, hmem, hconn⟩ := ih hm
      exact ⟨hd', hca, k, cl, List.mem_cons_of_mem _ hmem, hconn⟩

theorem close_not_mem_fanout (safe : Bool) (w : Conn → Bool) (aAddr : Addr)
    (text : List Nat) (l : List (Addr × Client)) (c : Conn) :
    Effect.close c ∉ fanout safe w aAddr text l := by
  induction l with
  | nil => simp [fanout]
  | cons hd tl ih =>
    obtain ⟨k1, c1⟩ := hd
    simp only [fanout, List.mem_append, not_or]
    refine ⟨?_, ih⟩
    split
    · split <;> simp
    · simp

theorem fanout_filter (safe : Bool) (w : Conn → Bool) (aAddr : Addr)
    (text : List Nat) (l : List (Addr × Client)) :
    (fanout safe w aAddr text l).filter (fun e => !e.isLog) =
      sendsOnly aAddr text l := by
  induction l with
  | nil => simp [fanout, sendsOnly]
  | cons hd tl ih =>
    obtain ⟨k1, c1⟩ := hd
    simp only [fanout, sendsOnly, List.filter_append]
    rw [ih]
    congr 1
    split
    · split <;> simp [Effect.isLog, List.filter]
    · simp

theorem serverStep_fst_congr (s1 s2 : Bool) (w1 w2 : Conn → Bool) (now : ℤ)
    (st : ServerState) (msg : HEvent) :
    (serverStep s1 w1 now st msg).fst = (serverStep s2 w2 now st msg).fst := by
  cases msg <;> simp only [serverStep] <;> (repeat' split) <;> rfl

theorem filter_nonLog_logSent_cons (sh : String) (d : List Nat)
    (l : List Effect) :
    List.filter (fun e => !e.isLog) (Effect.logSent sh d :: l) =
      List.filter (fun e => !e.isLog) l := rfl

theorem serverStep_sndFilter_congr (s1 s2 : Bool) (w1 w2 : Conn → Bool)
    (now : ℤ) (st : ServerState) (msg : HEvent) :
    ((serverStep s1 w1 now st msg).snd).filter (fun e => !e.isLog) =
      ((serverStep s2 w2 now st msg).snd).filter (fun e => !e.isLog) := by
  cases msg <;> simp only [serverStep] <;> (repeat' split) <;>
    first
      | rfl
      | rw [filter_nonLog_logSent_cons, filter_nonLog_logSent_cons,
            fanout_filter, fanout_filter]

/-- C1: an Inbound event from a registered session arriving strictly
before the minimum message interval has elapsed increments that session's
`strikeCount` by exactly 1 regardless of payload validity, leaves
`lastMessageAt` unchanged, broadcasts nothing, and then evaluates the
strike/ban rule. -/
theorem C1_rate_violation_strike (safe : Bool) (w : Conn → Bool) (now : ℤ)
    (s : ServerState) (conn : Conn) (text : List Nat) (a : Client)
    (hA : lookupA s.clients conn.addr = some a)
    (hFast : now - a.lastMessage < MessageRate) :
    lookupA (serverStep safe w now s (HEvent.NewMessage conn text)).1.clients
        conn.addr =
      some { conn := a.conn, lastMessage := a.lastMessage,
             strikeCount := a.strikeCount + 1 } ∧
    (∀ c d, Effect.send c d ∉ (serverStep safe w now s
        (HEvent.NewMessage conn text)).2) ∧
    (serverStep safe w now s (HEvent.NewMessage conn text)).1.bannedMfs =
      (if a.strikeCount + 1 > StrikeLimit then insertA s.bannedMfs conn.addr.ip now
       else s.bannedMfs) ∧
    (serverStep safe w now s (HEvent.NewMessage conn text)).2 =
      (if a.strikeCount + 1 > StrikeLimit then [Effect.close a.conn] else []) := by
  have hnot : ¬ now - a.lastMessage ≥ MessageRate := not_le.mpr hFast
  refine ⟨?_, ?_, ?_, ?_⟩ <;>
    · simp only [serverStep, hA, hnot, if_false, strikeUpdate]
      split <;> simp_all [lookupA_insertA_self]

/-- C1 witness: a concrete too-fast message (valid text, elapsed 0 < 1)
increments the strike count and broadcasts nothing. -/
theorem C1_witness :
    lookupA (serverStep true (fun _ => false) 0
        ({ clients := [(cA.addr, { conn := cA, lastMessage := 0, strikeCount := 0 })],
           bannedMfs := [] })
        (HEvent.NewMessage cA [104])).1.clients cA.addr =
      some { conn := cA, lastMessage := 0, strikeCount := 0 + 1 } ∧
    (∀ c d, Effect.send c d ∉ (serverStep true (fun _ => false) 0
        ({ clients := [(cA.addr, { conn := cA, lastMessage := 0, strikeCount := 0 })],
           bannedMfs := [] })
        (HEvent.NewMessage cA [104])).2) ∧
    (serverStep true (fun _ => false) 0
        ({ clients := [(cA.addr, { conn := cA, lastMessage := 0, strikeCount := 0 })],
           bannedMfs := [] })
        (HEvent.NewMessage cA [104])).1.bannedMfs =
      (if 0 + 1 > StrikeLimit then insertA [] cA.addr.ip 0 else []) ∧
    (serverStep true (fun _ => false) 0
        ({ clients := [(cA.addr, { conn := cA, lastMessage := 0, strikeCount := 0 })],
           bannedMfs := [] })
        (HEvent.NewMessage cA [104])).2 =
      (if 0 + 1 > StrikeLimit then [Effect.close cA] else []) :=
  C1_rate_violation_strike true (fun _ => false) 0
    ({ clients := [(cA.addr, { conn := cA, lastMessage := 0, strikeCount := 0 })],
       bannedMfs := [] })
    cA [104] { conn := cA, lastMessage := 0, strikeCount := 0 }
    (by decide) (by decide)

/-- C2: a Connected event from a host with a BanRecord at `T` is rejected
with a notice carrying the remaining ban seconds and closed, with no
session created and the record kept, when it arrives before `T + BanLimit`;
at or after `T + BanLimit` the record is deleted and the connection is
admitted with a fresh session. -/
theorem C2_ban_gating (safe : Bool) (w : Conn → Bool) (now : ℤ)
    (s : ServerState) (conn : Conn) (T : ℤ)
    (hBan : lookupA s.bannedMfs conn.addr.ip = some T) :
    (now - T < BanLimit →
      serverStep safe w now s (HEvent.ClientConnected conn) =
        (s, [Effect.banNotice conn (BanLimit - (now - T)), Effect.close conn])) ∧
    (now - T ≥ BanLimit →
      (serverStep safe w now s (HEvent.ClientConnected conn)).1.bannedMfs =
          eraseA s.bannedMfs conn.addr.ip ∧
      lookupA (serverStep safe w now s (HEvent.ClientConnected conn)).1.clients
          conn.addr =
        some { conn := conn, lastMessage := now, strikeCount := 0 } ∧
      (serverStep safe w now s (HEvent.ClientConnected conn)).2 =
        [Effect.logConnect (sensitive safe conn.addr.ip)]) := by
  constructor
  · intro hlt
    have hnot : ¬ now - T ≥ BanLimit := not_le.mpr hlt
    simp [serverStep, hBan, hnot]
  · intro hge
    simp [serverStep, hBan, hge, lookupA_insertA_self]

/-- C2 witness: host `10.0.0.9` banned at time 0 is rejected at time 5
and admitted at time 10. -/
theorem C2_witness :
    ((5 : ℤ) - 0 < BanLimit →
      serverStep true (fun _ => false) 5 sampleBanS (HEvent.ClientConnected cBan) =
        (sampleBanS, [Effect.banNotice cBan (BanLimit - ((5 : ℤ) - 0)),
          Effect.close cBan])) ∧
    ((5 : ℤ) - 0 ≥ BanLimit →
      (serverStep true (fun _ => false) 5 sampleBanS
          (HEvent.ClientConnected cBan)).1.bannedMfs =
        eraseA sampleBanS.bannedMfs cBan.addr.ip ∧
      lookupA (serverStep true (fun _ => false) 5 sampleBanS
          (HEvent.ClientConnected cBan)).1.clients cBan.addr =
        some { conn := cBan, lastMessage := 5, strikeCount := 0 } ∧
      (serverStep true (fun _ => false) 5 sampleBanS
          (HEvent.ClientConnected cBan)).2 =
        [Effect.logConnect (sensitive true cBan.addr.ip)]) :=
  C2_ban_gating true (fun _ => false) 5 sampleBanS cBan 0 (by decide)

/-- C8: an Inbound event whose connection has no registered session is
answered by closing that connection and nothing else: the registry and the
ban list are untouched and the only effect is the close. -/
theorem C8_no_session_close (safe : Bool) (w : Conn → Bool) (now : ℤ)
    (s : ServerState) (conn : Conn) (text : List Nat)
    (hNone : lookupA s.clients conn.addr = none) :
    serverStep safe w now s (HEvent.NewMessage conn text) =
      (s, [Effect.close conn]) := by
  simp [serverStep, hNone]

/-- C8 witness: inbound data on the empty registry closes the connection
and changes nothing. -/
theorem C8_witness :
    serverStep true (fun _ => false) 0 initState (HEvent.NewMessage cA [104]) =
      (initState, [Effect.close cA]) :=
  C8_no_session_close true (fun _ => false) 0 initState cA [104] (by decide)

theorem serverStep_strike_eq (safe : Bool) (w : Conn → Bool) (now : ℤ)
    (s : ServerState) (conn : Conn) (text : List Nat) (a : Client)
    (hA : lookupA s.clients conn.addr = some a)
    (hStrike : now - a.lastMessage < MessageRate ∨ utf8Valid text = false) :
    serverStep safe w now s (HEvent.NewMessage conn text) =
      strikeUpdate s conn a now := by
  rcases hStrike with hFast | hInv
  · have hnot : ¬ now - a.lastMessage ≥ MessageRate := not_le.mpr hFast
    simp [serverStep, hA, hnot]
  · by_cases hRate : now - a.lastMessage ≥ MessageRate
    · simp [serverStep, hA, hRate, hInv]
    · simp [serverStep, hA, hRate]

theorem serverStep_broadcast_eq (safe : Bool) (w : Conn → Bool) (now : ℤ)
    (s : ServerState) (conn : Conn) (text : List Nat) (a : Client)
    (hA : lookupA s.clients conn.addr = some a)
    (hSlow : now - a.lastMessage ≥ MessageRate)
    (hValid : utf8Valid text = true) :
    serverStep safe w now s (HEvent.NewMessage conn text) =
      ({ s with
           clients := insertA s.clients conn.addr
             ({ conn := a.conn, lastMessage := now, strikeCount := 0 }) },
       Effect.logSent (sensitive safe (addrStr conn.addr)) text ::
         fanout safe w conn.addr text
           (insertA s.clients conn.addr
             ({ conn := a.conn, lastMessage := now, strikeCount := 0 }))) := by
  simp [serverStep, hA, hSlow, hValid]

/-- C4: when an Inbound event is counted as a strike (rate violation or
invalid text) and the incremented strike count exceeds the limit, a
BanRecord for the sender's host is created or overwritten with
`bannedAt = now` and the sender's connection is closed during that same
event; at or below the limit no ban is created and no connection is
closed. -/
theorem C4_strike_ban_rule (safe : Bool) (w : Conn → Bool) (now : ℤ)
    (s : ServerState) (conn : Conn) (text : List Nat) (a : Client)
    (hA : lookupA s.clients conn.addr = some a)
    (hStrike : now - a.lastMessage < MessageRate ∨ utf8Valid text = false) :
    (a.strikeCount + 1 > StrikeLimit →
      lookupA (serverStep safe w now s
          (HEvent.NewMessage conn text)).1.bannedMfs conn.addr.ip = some now ∧
      Effect.close a.conn ∈
        (serverStep safe w now s (HEvent.NewMessage conn text)).2) ∧
    (a.strikeCount + 1 ≤ StrikeLimit →
      (serverStep safe w now s (HEvent.NewMessage conn text)).1.bannedMfs =
          s.bannedMfs ∧
      (∀ c, Effect.close c ∉
        (serverStep safe w now s (HEvent.NewMessage conn text)).2)) := by
  rw [serverStep_strike_eq safe w now s conn text a hA hStrike]
  constructor
  · intro h
    simp [strikeUpdate, h, lookupA_insertA_self]
  · intro h
    have hnot : ¬ a.strikeCount + 1 > StrikeLimit := not_lt.mpr h
    simp [strikeUpdate, hnot]

/-- C4 witness: an 11th strike (invalid byte 0xFF) bans the sender's host
at the current time and closes its connection. -/
theorem C4_witness :
    ((10 : Nat) + 1 > StrikeLimit →
      lookupA (serverStep true (fun _ => false) 5 sampleHotS
          (HEvent.NewMessage cA [255])).1.bannedMfs cA.addr.ip = some 5 ∧
      Effect.close cA ∈
        (serverStep true (fun _ => false) 5 sampleHotS
          (HEvent.NewMessage cA [255])).2) ∧
    ((10 : Nat) + 1 ≤ StrikeLimit →
      (serverStep true (fun _ => false) 5 sampleHotS
          (HEvent.NewMessage cA [255])).1.bannedMfs = sampleHotS.bannedMfs ∧
      (∀ c, Effect.close c ∉
        (serverStep true (fun _ => false) 5 sampleHotS
          (HEvent.NewMessage cA [255])).2)) :=
  C4_strike_ban_rule true (fun _ => false) 5 sampleHotS cA [255]
    { conn := cA, lastMessage := 0, strikeCount := 10 }
    (by decide) (by decide)

/-- C5: an Inbound event from a registered session with the interval
satisfied and valid text resets the sender's `strikeCount` to 0, sets its
`lastMessageAt` to the current time, leaves the ban list unchanged, and
broadcasts the payload to every other registered session — whatever the
previous strike count was. -/
theorem C5_accepted_broadcast (safe : Bool) (w : Conn → Bool) (now : ℤ)
    (s : ServerState) (conn : Conn) (text : List Nat) (a : Client)
    (hA : lookupA s.clients conn.addr = some a)
    (hSlow : now - a.lastMessage ≥ MessageRate)
    (hValid : utf8Valid text = true) :
    lookupA (serverStep safe w now s
        (HEvent.NewMessage conn text)).1.clients conn.addr =
      some { conn := a.conn, lastMessage := now, strikeCount := 0 } ∧
    (serverStep safe w now s (HEvent.NewMessage conn text)).1.bannedMfs =
      s.bannedMfs ∧
    (∀ k cl, (k, cl) ∈ s.clients → cl.conn.addr ≠ conn.addr →
      Effect.send cl.conn text ∈
        (serverStep safe w now s (HEvent.NewMessage conn text)).2) := by
  rw [serverStep_broadcast_eq safe w now s conn text a hA hSlow hValid]
  refine ⟨lookupA_insertA_self _ _ _, rfl, ?_⟩
  intro k cl hm hne
  rcases mem_insertA_of_mem s.clients conn.addr k
      ({ conn := a.conn, lastMessage := now, strikeCount := 0 }) cl hm with
    hin | ⟨hk, hlk⟩
  · exact List.mem_cons_of_mem _
      (send_mem_fanout safe w conn.addr text _ k cl hin hne)
  · rw [hA] at hlk
    have hcl : cl = a := by
      injection hlk.symm
    subst hcl
    refine List.mem_cons_of_mem _ ?_
    exact send_mem_fanout safe w conn.addr text _ conn.addr
      ({ conn := cl.conn, lastMessage := now, strikeCount := 0 })
      (mem_insertA_self _ _ _) hne

/-- C5 witness: with three registered sessions, a valid on-time message
from `cA` resets its strikes, stamps its `lastMessageAt`, and is written
to `cB` and `cC`. -/
theorem C5_witness :
    lookupA (serverStep true (fun _ => false) 5 sampleS
        (HEvent.NewMessage cA [104])).1.clients cA.addr =
      some { conn := cA, lastMessage := 5, strikeCount := 0 } ∧
    (serverStep true (fun _ => false) 5 sampleS
        (HEvent.NewMessage cA [104])).1.bannedMfs = sampleS.bannedMfs ∧
    (∀ k cl, (k, cl) ∈ sampleS.clients → cl.conn.addr ≠ cA.addr →
      Effect.send cl.conn [104] ∈
        (serverStep true (fun _ => false) 5 sampleS
          (HEvent.NewMessage cA [104])).2) :=
  C5_accepted_broadcast true (fun _ => false) 5 sampleS cA [104]
    { conn := cA, lastMessage := 0, strikeCount := 0 }
    (by decide) (by decide) (by decide)

/-- C6: an accepted broadcast attempts a write of the exact payload to all
and only the registered sessions whose remote address differs from the
sender's (never the sender's own connection); the set of write failures
(`w1` vs `w2`) changes neither the resulting state nor the attempted
writes, no recipient is closed, and no other session's registry entry is
touched. -/
theorem C6_fanout_exact (safe : Bool) (w1 w2 : Conn → Bool) (now : ℤ)
    (s : ServerState) (conn : Conn) (text : List Nat) (a : Client)
    (hA : lookupA s.clients conn.addr = some a)
    (hSlow : now - a.lastMessage ≥ MessageRate)
    (hValid : utf8Valid text = true) :
    (∀ k cl, (k, cl) ∈ (serverStep safe w1 now s
          (HEvent.NewMessage conn text)).1.clients →
      cl.conn.addr ≠ conn.addr →
      Effect.send cl.conn text ∈
        (serverStep safe w1 now s (HEvent.NewMessage conn text)).2) ∧
    (∀ c d, Effect.send c d ∈
        (serverStep safe w1 now s (HEvent.NewMessage conn text)).2 →
      d = text ∧ c.addr ≠ conn.addr ∧
      ∃ k cl, (k, cl) ∈ (serverStep safe w1 now s
          (HEvent.NewMessage conn text)).1.clients ∧ cl.conn = c) ∧
    (serverStep safe w1 now s (HEvent.NewMessage conn text)).1 =
      (serverStep safe w2 now s (HEvent.NewMessage conn text)).1 ∧
    ((serverStep safe w1 now s (HEvent.NewMessage conn text)).2).filter
        (fun e => !e.isLog) =
      ((serverStep safe w2 now s (HEvent.NewMessage conn text)).2).filter
        (fun e => !e.isLog) ∧
    (∀ c, Effect.close c ∉
      (serverStep safe w1 now s (HEvent.NewMessage conn text)).2) ∧
    (∀ k, k ≠ conn.addr →
      lookupA (serverStep safe w1 now s
          (HEvent.NewMessage conn text)).1.clients k =
        lookupA s.clients k) := by
  refine ⟨?_, ?_, serverStep_fst_congr safe safe w1 w2 now s _,
    serverStep_sndFilter_congr safe safe w1 w2 now s _, ?_, ?_⟩
  · rw [serverStep_broadcast_eq safe w1 now s conn text a hA hSlow hValid]
    intro k cl hm hne
    exact List.mem_cons_of_mem _
      (send_mem_fanout safe w1 conn.addr text _ k cl hm hne)
  · rw [serverStep_broadcast_eq safe w1 now s conn text a hA hSlow hValid]
    intro c d hm
    rcases List.mem_cons.mp hm with heq | hmem
    · exact absurd heq (by simp)
    · exact fanout_send_inv safe w1 conn.addr text _ c d hmem
  · rw [serverStep_broadcast_eq safe w1 now s conn text a hA hSlow hValid]
    intro c hm
    rcases List.mem_cons.mp hm with heq | hmem
    · exact absurd heq (by simp)
    · exact close_not_mem_fanout safe w1 conn.addr text _ c hmem
  · rw [serverStep_broadcast_eq safe w1 now s conn text a hA hSlow hValid]
    intro k hk
    exact lookupA_insertA_ne s.clients conn.addr k _ (Ne.symm hk)

/-- C6 witness: the concrete three-session broadcast from `cA`, with all
writes failing under `w2` and none under `w1`. -/
theorem C6_witness :
    (∀ k cl, (k, cl) ∈ (serverStep true (fun _ => false) 5 sampleS
          (HEvent.NewMessage cA [104])).1.clients →
      cl.conn.addr ≠ cA.addr →
      Effect.send cl.conn [104] ∈
        (serverStep true (fun _ => false) 5 sampleS
          (HEvent.NewMessage cA [104])).2) ∧
    (∀ c d, Effect.send c d ∈
        (serverStep true (fun _ => false) 5 sampleS
          (HEvent.NewMessage cA [104])).2 →
      d = [104] ∧ c.addr ≠ cA.addr ∧
      ∃ k cl, (k, cl) ∈ (serverStep true (fun _ => false) 5 sampleS
          (HEvent.NewMessage cA [104])).1.clients ∧ cl.conn = c) ∧
    (serverStep true (fun _ => false) 5 sampleS
        (HEvent.NewMessage cA [104])).1 =
      (serverStep true (fun _ => true) 5 sampleS
        (HEvent.NewMessage cA [104])).1 ∧
    ((serverStep true (fun _ => false) 5 sampleS
        (HEvent.NewMessage cA [104])).2).filter (fun e => !e.isLog) =
      ((serverStep true (fun _ => true) 5 sampleS
        (HEvent.NewMessage cA [104])).2).filter (fun e => !e.isLog) ∧
    (∀ c, Effect.close c ∉
      (serverStep true (fun _ => false) 5 sampleS
        (HEvent.NewMessage cA [104])).2) ∧
    (∀ k, k ≠ cA.addr →
      lookupA (serverStep true (fun _ => false) 5 sampleS
          (HEvent.NewMessage cA [104])).1.clients k =
        lookupA sampleS.clients k) :=
  C6_fanout_exact true (fun _ => false) (fun _ => true) 5 sampleS cA [104]
    { conn := cA, lastMessage := 0, strikeCount := 0 }
    (by decide) (by decide) (by decide)

/-- C7: a Disconnected event erases the session keyed by the connection's
remote address (a no-op when absent), never touches the ban list, closes
nothing, and is idempotent: processing it twice gives the same state as
processing it once. -/
theorem C7_disconnect_idempotent (safe : Bool) (w : Conn → Bool) (now : ℤ)
    (s : ServerState) (conn : Conn) :
    (serverStep safe w now s (HEvent.ClientDisconnected conn)).1.clients =
      eraseA s.clients conn.addr ∧
    (serverStep safe w now s (HEvent.ClientDisconnected conn)).1.bannedMfs =
      s.bannedMfs ∧
    lookupA (serverStep safe w now s
        (HEvent.ClientDisconnected conn)).1.clients conn.addr = none ∧
    (lookupA s.clients conn.addr = none →
      (serverStep safe w now s (HEvent.ClientDisconnected conn)).1 = s) ∧
    (serverStep safe w now
        (serverStep safe w now s (HEvent.ClientDisconnected conn)).1
        (HEvent.ClientDisconnected conn)).1 =
      (serverStep safe w now s (HEvent.ClientDisconnected conn)).1 ∧
    (∀ c, Effect.close c ∉
      (serverStep safe w now s (HEvent.ClientDisconnected conn)).2) := by
  refine ⟨rfl, rfl, lookupA_eraseA_self _ _, ?_, ?_, ?_⟩
  · intro h
    simp only [serverStep]
    rw [eraseA_of_lookupA_none _ _ h]
  · simp [serverStep, eraseA_idem]
  · intro c
    simp [serverStep]

/-- C9: the `SafeMode` privacy toggle changes neither the hub's state
transitions nor the non-log effects (closes, rejection notices, broadcast
writes) of any single event, and the state reached over any event
sequence is identical under both toggle values. -/
theorem C9_safe_mode_no_control_flow (w : Conn → Bool) (now : ℤ)
    (s : ServerState) (msg : HEvent) :
    (serverStep true w now s msg).1 = (serverStep false w now s msg).1 ∧
    ((serverStep true w now s msg).2).filter (fun e => !e.isLog) =
      ((serverStep false w now s msg).2).filter (fun e => !e.isLog) ∧
    (∀ w2 evs, serverRun true w2 evs = serverRun false w2 evs) := by
  refine ⟨serverStep_fst_congr true false w w now s msg,
    serverStep_sndFilter_congr true false w w now s msg, ?_⟩
  intro w2 evs
  suffices h : ∀ (l : List (ℤ × HEvent)) (st : ServerState),
      List.foldl (fun acc te => (serverStep true w2 te.fst acc te.snd).fst) st l =
      List.foldl (fun acc te => (serverStep false w2 te.fst acc te.snd).fst) st l by
    exact h evs initState
  intro l
  induction l with
  | nil => intro st; rfl
  | cons hd tl ih =>
    intro st
    simp only [List.foldl_cons]
    rw [serverStep_fst_congr true false w2 w2 hd.fst st hd.snd]
    exact ih _

/-- C10: the ban list is unchanged by every event except the two writing
cases — a Connected event whose host's ban has expired (which deletes the
record) and a strike that takes the sender over the limit (which
creates/overwrites the record) — and in particular a rejected connection
attempt from a still-banned host leaves the ban list, including its
`bannedAt` timestamp, untouched. -/
theorem C10_ban_list_frame (safe : Bool) (w : Conn → Bool) (now : ℤ)
    (s : ServerState) (msg : HEvent) :
    ((serverStep safe w now s msg).1.bannedMfs = s.bannedMfs ∨
      (∃ conn T, msg = HEvent.ClientConnected conn ∧
        lookupA s.bannedMfs conn.addr.ip = some T ∧ now - T ≥ BanLimit ∧
        (serverStep safe w now s msg).1.bannedMfs =
          eraseA s.bannedMfs conn.addr.ip) ∨
      (∃ conn text a, msg = HEvent.NewMessage conn text ∧
        lookupA s.clients conn.addr = some a ∧
        (now - a.lastMessage < MessageRate ∨ utf8Valid text = false) ∧
        a.strikeCount + 1 > StrikeLimit ∧
        (serverStep safe w now s msg).1.bannedMfs =
          insertA s.bannedMfs conn.addr.ip now)) ∧
    (∀ conn T, msg = HEvent.ClientConnected conn →
      lookupA s.bannedMfs conn.addr.ip = some T → now - T < BanLimit →
      (serverStep safe w now s msg).1.bannedMfs = s.bannedMfs) := by
  constructor
  · cases msg with
    | ClientConnected conn =>
      cases hb : lookupA s.bannedMfs conn.addr.ip with
      | none => left; simp [serverStep, hb]
      | some T =>
        by_cases hge : now - T ≥ BanLimit
        · right; left
          exact ⟨conn, T, rfl, hb, hge, by simp [serverStep, hb, hge]⟩
        · left; simp [serverStep, hb, hge]
    | ClientDisconnected conn => left; simp [serverStep]
    | NewMessage conn text =>
      cases ha : lookupA s.clients conn.addr with
      | none => left; simp [serverStep, ha]
      | some a =>
        by_cases hRate : now - a.lastMessage ≥ MessageRate
        · by_cases hValid : utf8Valid text = true
          · left; simp [serverStep, ha, hRate, hValid]
          · have hInv : utf8Valid text = false := by
              cases h2 : utf8Valid text with
              | true => exact absurd h2 hValid
              | false => rfl
            by_cases hOver : a.strikeCount + 1 > StrikeLimit
            · right; right
              refine ⟨conn, text, a, rfl, ha, Or.inr hInv, hOver, ?_⟩
              rw [serverStep_strike_eq safe w now s conn text a ha (Or.inr hInv)]
              simp [strikeUpdate, hOver]
            · left
              rw [serverStep_strike_eq safe w now s conn text a ha (Or.inr hInv)]
              simp [strikeUpdate, hOver]
        · have hFast : now - a.lastMessage < MessageRate := lt_of_not_ge hRate
          by_cases hOver : a.strikeCount + 1 > StrikeLimit
          · right; right
            refine ⟨conn, text, a, rfl, ha, Or.inl hFast, hOver, ?_⟩
            rw [serverStep_strike_eq safe w now s conn text a ha (Or.inl hFast)]
            simp [strikeUpdate, hOver]
          · left
            rw [serverStep_strike_eq safe w now s conn text a ha (Or.inl hFast)]
            simp [strikeUpdate, hOver]
  · intro conn T hmsg hb hlt
    subst hmsg
    have hnot : ¬ now - T ≥ BanLimit := not_le.mpr hlt
    simp [serverStep, hb, hnot]

/-- C3 counterexample: after `Connected cA` at time 0 and eleven too-fast
messages from `cA` at time 0, the reachable hub state has an unexpired
BanRecord for host `10.0.0.1` (banned at 0, elapsed 0 < BanLimit) *and*
still holds `cA`'s ClientSession in the registry — the ban-triggering
strike closed the connection but left the session in place, refuting the
claimed reachable-state invariant. -/
theorem C3_counterexample :
    lookupA (serverRun true (fun _ => false)
        ((0, HEvent.ClientConnected cA) ::
          List.replicate 11 (0, HEvent.NewMessage cA [104]))).bannedMfs
      cA.addr.ip = some 0 ∧
    (0 : ℤ) - 0 < BanLimit ∧
    lookupA (serverRun true (fun _ => false)
        ((0, HEvent.ClientConnected cA) ::
          List.replicate 11 (0, HEvent.NewMessage cA [104]))).clients
      cA.addr =
      some { conn := cA, lastMessage := 0, strikeCount := 11 } := by
  decide

/-- C3 (amended): a ban-triggering strike records the ban and closes the
offender's connection but leaves the offender's session registered; the
session is gone only once the connection's Disconnected event is
processed; and a host with an unexpired BanRecord is never admitted — a
Connected event from such a host leaves the registry unchanged. -/
theorem C3_amended_ban_cleanup (safe : Bool) (w : Conn → Bool) (now : ℤ)
    (s : ServerState) (conn : Conn) (text : List Nat) (a : Client)
    (hA : lookupA s.clients conn.addr = some a)
    (hStrike : now - a.lastMessage < MessageRate ∨ utf8Valid text = false)
    (hOver : a.strikeCount + 1 > StrikeLimit) :
    Effect.close a.conn ∈
      (serverStep safe w now s (HEvent.NewMessage conn text)).2 ∧
    lookupA (serverStep safe w now s
        (HEvent.NewMessage conn text)).1.bannedMfs conn.addr.ip = some now ∧
    lookupA (serverStep safe w now s
        (HEvent.NewMessage conn text)).1.clients conn.addr =
      some { conn := a.conn, lastMessage := a.lastMessage,
             strikeCount := a.strikeCount + 1 } ∧
    lookupA (serverStep safe w now
        (serverStep safe w now s (HEvent.NewMessage conn text)).1
        (HEvent.ClientDisconnected conn)).1.clients conn.addr = none ∧
    (∀ c T, lookupA s.bannedMfs c.addr.ip = some T → now - T < BanLimit →
      (serverStep safe w now s (HEvent.ClientConnected c)).1.clients =
        s.clients) := by
  rw [serverStep_strike_eq safe w now s conn text a hA hStrike]
  refine ⟨?_, ?_, ?_, ?_, ?_⟩
  · simp [strikeUpdate, hOver]
  · simp [strikeUpdate, hOver, lookupA_insertA_self]
  · simp [strikeUpdate, hOver, lookupA_insertA_self]
  · simp [serverStep, lookupA_eraseA_self]
  · intro c T hb hlt
    have hnot : ¬ now - T ≥ BanLimit := not_le.mpr hlt
    simp [serverStep, hb, hnot]

/-- C3 (amended) witness: the concrete 11th strike against a session with
10 strikes bans the host, closes the connection, leaves the session until
the Disconnected event erases it. -/
theorem C3_witness :
    Effect.close cA ∈
      (serverStep true (fun _ => false) 5 sampleHotS
        (HEvent.NewMessage cA [255])).2 ∧
    lookupA (serverStep true (fun _ => false) 5 sampleHotS
        (HEvent.NewMessage cA [255])).1.bannedMfs cA.addr.ip = some 5 ∧
    lookupA (serverStep true (fun _ => false) 5 sampleHotS
        (HEvent.NewMessage cA [255])).1.clients cA.addr =
      some { conn := cA, lastMessage := 0, strikeCount := 10 + 1 } ∧
    lookupA (serverStep true (fun _ => false) 5
        (serverStep true (fun _ => false) 5 sampleHotS
          (HEvent.NewMessage cA [255])).1
        (HEvent.ClientDisconnected cA)).1.clients cA.addr = none ∧
    (∀ c T, lookupA sampleHotS.bannedMfs c.addr.ip = some T →
      (5 : ℤ) - T < BanLimit →
      (serverStep true (fun _ => false) 5 sampleHotS
          (HEvent.ClientConnected c)).1.clients = sampleHotS.clients) :=
  C3_amended_ban_cleanup true (fun _ => false) 5 sampleHotS cA [255]
    { conn := cA, lastMessage := 0, strikeCount := 10 }
    (by decide) (by decide) (by decide)
